import Mathlib

/-!
Verification of the pothole-detection pipeline of this repository
(src/detector.py, src/detector_heuristic.py, src/detector_yolo.py).

Modelling conventions:
* Python floats are modelled as exact rationals (ℚ); `np.pi` is passed
  around as an explicit parameter `pi` of the scoring functions.
* The OpenCV image-processing stages (CLAHE, Canny, morphology,
  `cv2.findContours`, `cv2.contourArea`, `cv2.arcLength`, `np.mean`,
  `np.std`) are opaque: a frame is represented by its dimensions together
  with the list of contour candidates the pipeline extracts from the
  scaled region of interest, each candidate carrying the numeric
  measurements the source reads from OpenCV (area, bounding rectangle,
  perimeter, convex-hull area, patch mean and standard deviation,
  neighborhood mean).
* `cv2.resize(roi, None, fx=s, fy=s)` produces an image of size
  `round(w*s) x round(h*s)` with round-half-to-even (`cvRound`); this is
  modelled by `cvRound` below.
* Everything downstream of contour extraction (area/aspect filters, patch
  slicing, confidence scoring, the confidence threshold, the stable
  descending sort, non-maximum suppression, the top-5 cap, the
  last-known-good cache and the exception fallback) is translated
  directly from the source.
-/

namespace Pothole

/-- A returned detection `(x, y, w, h, confidence)` in normalized
coordinates, as produced by `detect` in detector.py / detector_heuristic.py. -/
structure Detection where
  x : ℚ
  y : ℚ
  w : ℚ
  h : ℚ
  conf : ℚ
deriving Repr, DecidableEq

/-- Statistics of a grayscale patch `gray[y:y+h, x:x+w]`: its pixel count
(`patch.size`), its mean intensity (`np.mean(patch)`) and its standard
deviation (`np.std(patch)`). -/
structure PatchStats where
  size : ℕ
  mean : ℚ
  std : ℚ
deriving Repr, DecidableEq

/-- One contour candidate extracted by `cv2.findContours` from the scaled
region of interest, together with the measurements the source code reads
from it: `cv2.contourArea`, `cv2.boundingRect` (x, y, w, h in scaled ROI
pixels), `cv2.arcLength(contour, True)`, the area of its convex hull, the
mean and standard deviation of its grayscale patch, and the mean of the
margin-expanded neighborhood window used by the rigorous scorer. -/
structure Candidate where
  area : ℚ
  x : ℕ
  y : ℕ
  w : ℕ
  h : ℕ
  perimeter : ℚ
  hullArea : ℚ
  patchMean : ℚ
  patchStd : ℚ
  nbMean : ℚ
deriving Repr, DecidableEq

/-- Configuration fields of the detector classes: `min_confidence`,
`min_area_ratio`, `max_area_ratio`, `roi_y_start`. -/
structure DetectorConfig where
  minConfidence : ℚ
  minAreaRatio : ℚ
  maxAreaRatio : ℚ
  roiYStart : ℚ
deriving Repr, DecidableEq

/-- Mutable per-detector state: `_frame_count` and `_last_detections`. -/
structure DetectorState where
  frameCount : ℕ
  lastDetections : List Detection
deriving Repr, DecidableEq

/-- State of a freshly constructed detector (`__init__`). -/
def DetectorState.init : DetectorState :=
  { frameCount := 0, lastDetections := [] }

/-- One frame as seen by the heuristic pipeline: its dimensions, the
candidates that contour extraction yields on it, and whether an exception
is raised during the per-frame processing (the oracle for the
`try/except` block of `detect`). -/
structure FrameData where
  height : ℕ
  width : ℕ
  candidates : List Candidate
  err : Bool
deriving Repr, DecidableEq

/-- Intersection over union of two boxes, translated from the static
method `_iou` of detector.py / detector_heuristic.py. -/
def iou (b1 b2 : Detection) : ℚ :=
  let xi1 := max b1.x b2.x
  let yi1 := max b1.y b2.y
  let xi2 := min (b1.x + b1.w) (b2.x + b2.w)
  let yi2 := min (b1.y + b1.h) (b2.y + b2.h)
  if xi2 ≤ xi1 ∨ yi2 ≤ yi1 then 0
  else
    let interArea := (xi2 - xi1) * (yi2 - yi1)
    let unionArea := b1.w * b1.h + b2.w * b2.h - interArea
    if 0 < unionArea then interArea / unionArea else 0

/-- Insert a detection into a descending-by-confidence list, before the
first element of not larger confidence.  Iterated over a list this is
exactly a stable descending sort, the semantics of the source line
`detections.sort(key=lambda d: d[4], reverse=True)`. -/
def insertDesc (a : Detection) : List Detection → List Detection
  | [] => [a]
  | b :: l => if a.conf < b.conf then b :: insertDesc a l else a :: b :: l

/-- Stable sort by non-increasing confidence, the model of Python
`detections.sort(key=lambda d: d[4], reverse=True)` /
`sorted(detections, key=lambda x: x[4], reverse=True)`. -/
def sortByConfDesc : List Detection → List Detection
  | [] => []
  | a :: l => insertDesc a (sortByConfDesc l)

/-- Body of the `while detections:` loop of `_nms`: pop the best remaining
detection, keep it, drop every remaining detection whose IoU with it is
not below the threshold.  The loop runs at most `length` iterations, so it
is modelled with a fuel argument instantiated with the list length; the
fuel-exhausted case is unreachable for that instantiation. -/
def nmsLoop (thr : ℚ) : ℕ → List Detection → List Detection
  | _, [] => []
  | 0, _ :: _ => []
  | fuel + 1, best :: rest =>
      best :: nmsLoop thr fuel (rest.filter (fun d => decide (iou best d < thr)))

/-- The `_nms` method: lists of length at most one are returned unchanged,
otherwise the list is (re)sorted by descending confidence and the greedy
suppression loop is run. -/
def nms (detections : List Detection) (thr : ℚ) : List Detection :=
  if detections.length ≤ 1 then detections
  else
    let s := sortByConfDesc detections
    nmsLoop thr s.length s

/-- Rounding to the nearest integer with ties to even, the semantics of
OpenCV `cvRound` used by `cv2.resize` to compute the destination size. -/
def cvRound (q : ℚ) : ℤ :=
  let f := ⌊q⌋
  let frac := q - f
  if frac < 1 / 2 then f
  else if 1 / 2 < frac then f + 1
  else if f % 2 = 0 then f else f + 1

/-- Geometry derived from one frame before the contour loop of `detect`:
ROI offset `roi_y = int(height * roi_y_start)`, ROI dimensions, the
downscale factor (`640 / roi_w` when the ROI is wider than 640 pixels),
the scaled image dimensions, and the absolute area bounds
`frame_area * min_area_ratio` / `frame_area * max_area_ratio` computed
from the scaled image area. -/
structure RoiGeom where
  height : ℕ
  roiY : ℕ
  roiW : ℕ
  scale : ℚ
  scaledW : ℕ
  scaledH : ℕ
  minArea : ℚ
  maxArea : ℚ
deriving Repr, DecidableEq

/-- Computes the per-frame geometry of `detect` (detector.py lines 68-111,
identical in detector_heuristic.py). -/
def mkGeom (cfg : DetectorConfig) (height width : ℕ) : RoiGeom :=
  let roiY := (⌊cfg.roiYStart * (height : ℚ)⌋).toNat
  let roiH := height - roiY
  let roiW := width
  let scale : ℚ := if 640 < roiW then 640 / (roiW : ℚ) else 1
  let scaledW : ℕ := if 640 < roiW then 640 else roiW
  let scaledH : ℕ := if 640 < roiW then (cvRound ((roiH : ℚ) * scale)).toNat else roiH
  let frameArea : ℚ := (scaledW : ℚ) * (scaledH : ℚ)
  { height := height, roiY := roiY, roiW := roiW, scale := scale,
    scaledW := scaledW, scaledH := scaledH,
    minArea := frameArea * cfg.minAreaRatio,
    maxArea := frameArea * cfg.maxAreaRatio }

/-- Bounding-box aspect ratio as computed by both detectors:
`max(w, h) / (min(w, h) + 1)`. -/
def aspectRatio (w h : ℕ) : ℚ :=
  (max w h : ℚ) / ((min w h : ℚ) + 1)

/-- Circularity `4 * pi * area / perimeter ** 2`. -/
def circularity (pi area perimeter : ℚ) : ℚ :=
  4 * pi * area / perimeter ^ 2

/-- Pixel count of the neighborhood window
`full_gray[y1:y2, x1:x2]` built by the rigorous scorer around the box
with a margin of `max(bw, bh) // 2` pixels, clipped to the image. -/
def nbhdSize (scaledH scaledW : ℕ) (c : Candidate) : ℕ :=
  let margin := max c.w c.h / 2
  let y1 := c.y - margin
  let y2 := min scaledH (c.y + c.h + margin)
  let x1 := c.x - margin
  let x2 := min scaledW (c.x + c.w + margin)
  (y2 - y1) * (x2 - x1)

/-- Contrast of the patch against its neighborhood,
`(neighbor_mean - mean_intensity) / (neighbor_mean + 1)`. -/
def contrastRatio (nbMean mean : ℚ) : ℚ :=
  (nbMean - mean) / (nbMean + 1)

/-- The lenient multi-criterion confidence score, translated from
`_compute_confidence` of detector.py (circularity 25 percent, aspect 15,
darkness 30, internal contrast 20, convexity 10; result clamped to 1). -/
def computeConfidencePothole (pi : ℚ) (c : Candidate)
    (patch : Option PatchStats) : ℚ :=
  let score1 : ℚ :=
    if 0 < c.perimeter then
      let circ := circularity pi c.area c.perimeter
      if 3 / 10 ≤ circ ∧ circ ≤ 1 then 25 / 100 * min (circ / (7 / 10)) 1
      else 25 / 100 * (3 / 10)
    else 0
  let aspect := aspectRatio c.w c.h
  let score2 : ℚ :=
    if aspect ≤ 3 / 2 then 15 / 100
    else if aspect ≤ 5 / 2 then 15 / 100 * (7 / 10)
    else if aspect ≤ 4 then 15 / 100 * (4 / 10)
    else 0
  let score3 : ℚ :=
    match patch with
    | some p =>
        if 0 < p.size then
          let darkness := 1 - p.mean / 255
          if 1 / 2 < darkness then 30 / 100 * darkness
          else 30 / 100 * darkness * (1 / 2)
        else 0
    | none => 0
  let score4 : ℚ :=
    match patch with
    | some p => if 0 < p.size then 20 / 100 * min (p.std / 40) 1 else 0
    | none => 0
  let score5 : ℚ :=
    if 0 < c.hullArea then 10 / 100 * (c.area / c.hullArea) else 0
  min (score1 + score2 + score3 + score4 + score5) 1

/-- The rigorous confidence score, translated from `_compute_confidence`
of detector_heuristic.py: a missing or sub-100-pixel patch scores 0, then
five hard gates each return 0 immediately (brightness above 120, contrast
ratio below 0.15 on a nonempty neighborhood, circularity below 0.2 or a
degenerate perimeter, aspect ratio above 3, texture standard deviation
below 5); otherwise the weighted sum (35/25/20/10/10) clamped to 1. -/
def computeConfidenceHeuristic (pi : ℚ) (scaledH scaledW : ℕ)
    (c : Candidate) (patch : Option PatchStats) : ℚ :=
  match patch with
  | none => 0
  | some p =>
    if p.size < 100 then 0
    else if 120 < p.mean then 0
    else
      let darknessScore := (1 - p.mean / 120) * (35 / 100)
      let nbSize := nbhdSize scaledH scaledW c
      let ratio := contrastRatio c.nbMean p.mean
      if 0 < nbSize ∧ ratio < 15 / 100 then 0
      else
        let contrastScore : ℚ :=
          if 0 < nbSize then min (ratio / (4 / 10)) 1 * (25 / 100) else 0
        if c.perimeter ≤ 0 then 0
        else
          let circ := circularity pi c.area c.perimeter
          if circ < 2 / 10 then 0
          else
            let circScore := min (circ / (6 / 10)) 1 * (20 / 100)
            let aspect := aspectRatio c.w c.h
            if 3 < aspect then 0
            else
              let aspectScore := max 0 (1 - (aspect - 1) / 2) * (10 / 100)
              if p.std < 5 then 0
              else
                let textureScore := min (p.std / 30) 1 * (10 / 100)
                min (darknessScore + contrastScore + circScore +
                      aspectScore + textureScore) 1

/-- The patch slice
`patch = gray[y:y+h, x:x+w] if y+h <= gray.shape[0] and x+w <= gray.shape[1] else None`:
its pixel count is `w * h` and its mean and standard deviation are the
measurements carried by the candidate. -/
def patchOf (geo : RoiGeom) (c : Candidate) : Option PatchStats :=
  if c.y + c.h ≤ geo.scaledH ∧ c.x + c.w ≤ geo.scaledW then
    some { size := c.w * c.h, mean := c.patchMean, std := c.patchStd }
  else none

/-- One iteration of the contour loop of `detect` (detector.py lines
115-149, identical in detector_heuristic.py): filter by area, filter by
aspect ratio, slice the grayscale patch when the rectangle fits the
image, score, apply the confidence threshold, and normalize the box back
to full-frame fractional coordinates. -/
def toDetection (cfg : DetectorConfig)
    (score : Candidate → Option PatchStats → ℚ)
    (geo : RoiGeom) (c : Candidate) : Option Detection :=
  if c.area < geo.minArea ∨ geo.maxArea < c.area then none
  else if 5 < aspectRatio c.w c.h then none
  else
    let confidence := score c (patchOf geo c)
    if cfg.minConfidence ≤ confidence then
      some { x := (c.x : ℚ) / geo.scale / (geo.roiW : ℚ)
           , y := ((c.y : ℚ) / geo.scale + (geo.roiY : ℚ)) / (geo.height : ℚ)
           , w := (c.w : ℚ) / geo.scale / (geo.roiW : ℚ)
           , h := (c.h : ℚ) / geo.scale / (geo.height : ℚ)
           , conf := confidence }
    else none

/-- The successful branch of the `try` block of `detect`: build the
filtered detections, sort them by descending confidence, run `_nms` with
threshold 0.3 and keep the first five. -/
def detectPipeline (cfg : DetectorConfig)
    (score : RoiGeom → Candidate → Option PatchStats → ℚ)
    (fd : FrameData) : List Detection :=
  let geo := mkGeom cfg fd.height fd.width
  let dets := fd.candidates.filterMap (toDetection cfg (score geo) geo)
  let sorted := sortByConfDesc dets
  let suppressed := nms sorted (3 / 10)
  suppressed.take 5

/-- The `detect` method shared (line for line) by detector.py and
detector_heuristic.py: a `None` or zero-size frame yields `[]` at once;
otherwise `_frame_count` is incremented, and either the pipeline runs and
its result is cached in `_last_detections`, or — when an exception occurs
anywhere in the `try` block — the cached `_last_detections` are returned
when non-empty, else `[]`, with the cache left untouched. -/
def detectCore (cfg : DetectorConfig)
    (score : RoiGeom → Candidate → Option PatchStats → ℚ)
    (st : DetectorState) (frame : Option FrameData) :
    List Detection × DetectorState :=
  match frame with
  | none => ([], st)
  | some fd =>
    if fd.height * fd.width = 0 then ([], st)
    else
      let st1 := { st with frameCount := st.frameCount + 1 }
      if fd.err then
        (if st1.lastDetections.isEmpty then [] else st1.lastDetections, st1)
      else
        let top := detectPipeline cfg score fd
        (top, { st1 with lastDetections := top })

/-- Constructor defaults of `PotholeDetector` in detector.py. -/
def PotholeDetector.defaultConfig : DetectorConfig :=
  { minConfidence := 40 / 100, minAreaRatio := 1 / 1000,
    maxAreaRatio := 15 / 100, roiYStart := 35 / 100 }

/-- `PotholeDetector.detect` of detector.py: the shared pipeline with the
lenient scorer. -/
def PotholeDetector.detect (pi : ℚ) (cfg : DetectorConfig)
    (st : DetectorState) (frame : Option FrameData) :
    List Detection × DetectorState :=
  detectCore cfg (fun _ => computeConfidencePothole pi) st frame

/-- Constructor defaults of `HeuristicPotholeDetector` in
detector_heuristic.py. -/
def HeuristicPotholeDetector.defaultConfig : DetectorConfig :=
  { minConfidence := 20 / 100, minAreaRatio := 3 / 1000,
    maxAreaRatio := 15 / 100, roiYStart := 40 / 100 }

/-- `HeuristicPotholeDetector.detect` of detector_heuristic.py: the shared
pipeline with the rigorous scorer. -/
def HeuristicPotholeDetector.detect (pi : ℚ) (cfg : DetectorConfig)
    (st : DetectorState) (frame : Option FrameData) :
    List Detection × DetectorState :=
  detectCore cfg
    (fun geo => computeConfidenceHeuristic pi geo.scaledH geo.scaledW)
    st frame

/-- One frame as seen by `YOLOPotholeDetector.detect`: the view of the
same frame that the heuristic fallback detector would extract, the raw
model output rows (after the `[1, 5, N]` transpose), the index list
returned by `cv2.dnn.NMSBoxes` (opaque), and whether the inference step
raises for this frame. -/
structure YoloFrame where
  heurView : FrameData
  rawOutputs : List (List ℚ)
  nmsIdx : List ℕ
  inferErr : Bool
deriving Repr, DecidableEq

/-- One row of the model output processed by `_process_outputs` of
detector_yolo.py: rows shorter than 5 are skipped, the confidence is the
maximum of the entries from index 4 on, rows below the confidence
threshold are skipped, and the center-format box is normalized by the
model input size and clamped into the unit square. -/
def yoloBoxConf (confThreshold : ℚ) (inputW inputH : ℕ)
    (row : List ℚ) : Option Detection :=
  if row.length < 5 then none
  else
    let confidence :=
      match row.drop 4 with
      | [] => 0
      | a :: rest => rest.foldl max a
    if confidence < confThreshold then none
    else
      let cx := row.getD 0 0
      let cy := row.getD 1 0
      let w := row.getD 2 0
      let h := row.getD 3 0
      let cxn := cx / (inputW : ℚ)
      let cyn := cy / (inputH : ℚ)
      let wn := w / (inputW : ℚ)
      let hn := h / (inputH : ℚ)
      let xn := max 0 (min 1 (cxn - wn / 2))
      let yn := max 0 (min 1 (cyn - hn / 2))
      let wn2 := max 0 (min (1 - xn) wn)
      let hn2 := max 0 (min (1 - yn) hn)
      some { x := xn, y := yn, w := wn2, h := hn2, conf := confidence }

/-- `_process_outputs` of detector_yolo.py with `cv2.dnn.NMSBoxes`
abstracted by the index list it returns: build the thresholded boxes,
keep the indexed ones, sort by descending confidence and cap at five. -/
def YOLOPotholeDetector.processOutputs (confThreshold : ℚ)
    (inputW inputH : ℕ) (rows : List (List ℚ)) (nmsIdx : List ℕ) :
    List Detection :=
  let pre := rows.filterMap (yoloBoxConf confThreshold inputW inputH)
  let kept := if pre.isEmpty then [] else nmsIdx.filterMap (fun i => pre[i]?)
  (sortByConfDesc kept).take 5

/-- `_detect_fallback` of detector_yolo.py: construct a fresh
`HeuristicPotholeDetector(min_confidence=0.85)` and return its `detect`
result on the same frame. -/
def YOLOPotholeDetector.detectFallback (pi : ℚ) (yf : YoloFrame) :
    List Detection :=
  (HeuristicPotholeDetector.detect pi
      { HeuristicPotholeDetector.defaultConfig with minConfidence := 85 / 100 }
      DetectorState.init (some yf.heurView)).1

/-- `YOLOPotholeDetector.detect`: empty on a `None` or zero-size frame,
the heuristic fallback when the model is not loaded or when inference
raises, otherwise the processed model outputs. -/
def YOLOPotholeDetector.detect (pi : ℚ) (confThreshold : ℚ)
    (modelLoaded : Bool) (frame : Option YoloFrame) : List Detection :=
  match frame with
  | none => []
  | some yf =>
    if yf.heurView.height * yf.heurView.width = 0 then []
    else if !modelLoaded then YOLOPotholeDetector.detectFallback pi yf
    else if yf.inferErr then YOLOPotholeDetector.detectFallback pi yf
    else
      YOLOPotholeDetector.processOutputs confThreshold 320 320
        yf.rawOutputs yf.nmsIdx

/-! ### Lemmas about the stable descending sort -/

/-- Sortedness by non-increasing confidence. -/
def SortedDesc (l : List Detection) : Prop :=
  l.Pairwise (fun a b => b.conf ≤ a.conf)

theorem mem_insertDesc {x a : Detection} {l : List Detection} :
    x ∈ insertDesc a l ↔ x = a ∨ x ∈ l := by
  induction l with
  | nil => simp [insertDesc]
  | cons b t ih =>
      simp only [insertDesc]
      split
      · simp only [List.mem_cons, ih]
        tauto
      · simp only [List.mem_cons]

theorem insertDesc_eq_cons {a : Detection} {l : List Detection}
    (h : ∀ b ∈ l, b.conf ≤ a.conf) : insertDesc a l = a :: l := by
  cases l with
  | nil => rfl
  | cons b t =>
      have hb : b.conf ≤ a.conf := h b (List.mem_cons_self b t)
      simp [insertDesc, not_lt.mpr hb]

theorem sortedDesc_insertDesc {a : Detection} {l : List Detection}
    (hl : SortedDesc l) : SortedDesc (insertDesc a l) := by
  induction l with
  | nil => simp [insertDesc, SortedDesc]
  | cons b t ih =>
      rw [SortedDesc, List.pairwise_cons] at hl
      simp only [insertDesc]
      split
      · rename_i hab
        refine List.Pairwise.cons ?_ (ih hl.2)
        intro x hx
        rcases mem_insertDesc.mp hx with rfl | hx
        · exact le_of_lt hab
        · exact hl.1 x hx
      · rename_i hab
        refine List.Pairwise.cons ?_ (List.Pairwise.cons hl.1 hl.2)
        intro x hx
        rcases List.mem_cons.mp hx with rfl | hx
        · exact not_lt.mp hab
        · exact le_trans (hl.1 x hx) (not_lt.mp hab)

theorem mem_sortByConfDesc {x : Detection} {l : List Detection} :
    x ∈ sortByConfDesc l ↔ x ∈ l := by
  induction l with
  | nil => simp [sortByConfDesc]
  | cons a t ih => simp [sortByConfDesc, mem_insertDesc, ih]

theorem sortedDesc_sortByConfDesc (l : List Detection) :
    SortedDesc (sortByConfDesc l) := by
  induction l with
  | nil => exact List.Pairwise.nil
  | cons a t ih => exact sortedDesc_insertDesc ih

theorem sortByConfDesc_eq_of_sorted {l : List Detection}
    (hl : SortedDesc l) : sortByConfDesc l = l := by
  induction l with
  | nil => rfl
  | cons a t ih =>
      rw [SortedDesc, List.pairwise_cons] at hl
      rw [sortByConfDesc, ih hl.2]
      exact insertDesc_eq_cons hl.1

/-! ### Lemmas about non-maximum suppression -/

theorem nmsLoop_nil (thr : ℚ) (fuel : ℕ) : nmsLoop thr fuel [] = [] := by
  cases fuel <;> rfl

theorem nmsLoop_zero (thr : ℚ) (l : List Detection) :
    nmsLoop thr 0 l = [] := by
  cases l <;> rfl

theorem nmsLoop_sublist (thr : ℚ) (fuel : ℕ) (l : List Detection) :
    List.Sublist (nmsLoop thr fuel l) l := by
  induction fuel generalizing l with
  | zero => rw [nmsLoop_zero]; exact List.nil_sublist l
  | succ fuel ih =>
      cases l with
      | nil => simp [nmsLoop_nil]
      | cons best rest =>
          rw [nmsLoop]
          exact List.Sublist.cons₂ best
            ((ih _).trans (List.filter_sublist rest))

theorem nmsLoop_pairwise (thr : ℚ) (fuel : ℕ) (l : List Detection) :
    (nmsLoop thr fuel l).Pairwise (fun a b => iou a b < thr) := by
  induction fuel generalizing l with
  | zero => rw [nmsLoop_zero]; exact List.Pairwise.nil
  | succ fuel ih =>
      cases l with
      | nil => rw [nmsLoop_nil]; exact List.Pairwise.nil
      | cons best rest =>
          rw [nmsLoop]
          refine List.Pairwise.cons ?_ (ih _)
          intro d hd
          have hmem : d ∈ rest.filter (fun d => decide (iou best d < thr)) :=
            (nmsLoop_sublist thr fuel _).subset hd
          have := List.of_mem_filter hmem
          exact of_decide_eq_true this

theorem nmsLoop_fuel_irrel (thr : ℚ) {f1 f2 : ℕ} {l : List Detection}
    (h1 : l.length ≤ f1) (h2 : l.length ≤ f2) :
    nmsLoop thr f1 l = nmsLoop thr f2 l := by
  induction f1 generalizing l f2 with
  | zero =>
      have : l = [] := List.length_eq_zero.mp (Nat.le_zero.mp h1)
      subst this
      rw [nmsLoop_nil, nmsLoop_nil]
  | succ f1 ih =>
      cases l with
      | nil => rw [nmsLoop_nil, nmsLoop_nil]
      | cons best rest =>
          cases f2 with
          | zero => exact absurd h2 (by simp)
          | succ f2 =>
              rw [nmsLoop, nmsLoop]
              have hlen : (rest.filter
                  (fun d => decide (iou best d < thr))).length ≤ rest.length :=
                List.length_filter_le _ _
              have h1r : rest.length ≤ f1 := Nat.succ_le_succ_iff.mp h1
              have h2r : rest.length ≤ f2 := Nat.succ_le_succ_iff.mp h2
              rw [ih (hlen.trans h1r) (hlen.trans h2r)]

theorem mem_nms {x : Detection} {l : List Detection} {thr : ℚ}
    (hx : x ∈ nms l thr) : x ∈ l := by
  rw [nms] at hx
  split at hx
  · exact hx
  · exact mem_sortByConfDesc.mp ((nmsLoop_sublist thr _ _).subset hx)

theorem sortedDesc_nms (l : List Detection) (thr : ℚ) :
    SortedDesc (nms l thr) := by
  rw [nms]
  split
  · rename_i h
    match l, h with
    | [], _ => exact List.Pairwise.nil
    | [a], _ => exact List.pairwise_singleton _ a
  · exact List.Pairwise.sublist (nmsLoop_sublist thr _ _)
      (sortedDesc_sortByConfDesc l)

theorem length_insertDesc (a : Detection) (l : List Detection) :
    (insertDesc a l).length = l.length + 1 := by
  induction l with
  | nil => rfl
  | cons b u ih =>
      rw [insertDesc]
      split
      · simp only [List.length_cons, ih]
      · simp [List.length_cons]

theorem length_sortByConfDesc (l : List Detection) :
    (sortByConfDesc l).length = l.length := by
  induction l with
  | nil => rfl
  | cons a t ih => rw [sortByConfDesc, length_insertDesc, ih, List.length_cons]

theorem nms_eq_nmsLoop {l : List Detection} (hl : SortedDesc l) (thr : ℚ) :
    nms l thr = nmsLoop thr l.length l := by
  rw [nms]
  split
  · rename_i h
    match l, h with
    | [], _ => rfl
    | [a], _ => rfl
  · rw [sortByConfDesc_eq_of_sorted hl]

/-! ### Commutation of the pipeline with confidence filtering

The predicate `confAtLeast t` keeps detections of confidence at least `t`;
the stable sort and the suppression loop both commute with it, which is
the heart of the threshold-monotonicity property. -/

/-- Boolean predicate keeping detections of confidence at least `t`. -/
def confAtLeast (t : ℚ) (d : Detection) : Bool :=
  decide (t ≤ d.conf)

theorem confAtLeast_eq_true {t : ℚ} {d : Detection} :
    confAtLeast t d = true ↔ t ≤ d.conf := by
  simp [confAtLeast]

theorem filter_insertDesc (t : ℚ) (a : Detection) {l : List Detection}
    (hl : SortedDesc l) :
    (insertDesc a l).filter (confAtLeast t)
      = if t ≤ a.conf then insertDesc a (l.filter (confAtLeast t))
        else l.filter (confAtLeast t) := by
  induction l with
  | nil =>
      by_cases hta : t ≤ a.conf
      · simp [insertDesc, List.filter_cons, confAtLeast_eq_true, hta]
      · simp [insertDesc, List.filter_cons, confAtLeast_eq_true, hta]
  | cons b tl ih =>
      rw [SortedDesc, List.pairwise_cons] at hl
      rw [insertDesc]
      split
      · rename_i hab
        by_cases hb : t ≤ b.conf
        · by_cases hta : t ≤ a.conf
          · rw [List.filter_cons, if_pos (confAtLeast_eq_true.mpr hb),
              ih hl.2, if_pos hta, List.filter_cons,
              if_pos (confAtLeast_eq_true.mpr hb), if_pos hta, insertDesc,
              if_pos hab]
          · rw [List.filter_cons, if_pos (confAtLeast_eq_true.mpr hb),
              ih hl.2, if_neg hta, List.filter_cons,
              if_pos (confAtLeast_eq_true.mpr hb), if_neg hta]
        · have hbf : ¬confAtLeast t b = true := fun hc =>
            hb (confAtLeast_eq_true.mp hc)
          by_cases hta : t ≤ a.conf
          · exact absurd (le_trans hta (le_of_lt hab)) hb
          · rw [List.filter_cons, if_neg hbf, ih hl.2, if_neg hta,
              List.filter_cons, if_neg hbf, if_neg hta]
      · rename_i hab
        by_cases hta : t ≤ a.conf
        · rw [List.filter_cons, if_pos (confAtLeast_eq_true.mpr hta),
            if_pos hta]
          refine (insertDesc_eq_cons ?_).symm
          intro x hx
          rcases List.mem_filter.mp hx with ⟨hx2, _⟩
          rcases List.mem_cons.mp hx2 with rfl | hx3
          · exact not_lt.mp hab
          · exact le_trans (hl.1 x hx3) (not_lt.mp hab)
        · rw [List.filter_cons,
            if_neg fun hc => hta (confAtLeast_eq_true.mp hc), if_neg hta]

theorem sortByConfDesc_filter (t : ℚ) (l : List Detection) :
    sortByConfDesc (l.filter (confAtLeast t))
      = (sortByConfDesc l).filter (confAtLeast t) := by
  induction l with
  | nil => rfl
  | cons a tl ih =>
      rw [sortByConfDesc, List.filter_cons]
      by_cases hta : t ≤ a.conf
      · rw [if_pos (confAtLeast_eq_true.mpr hta), sortByConfDesc, ih,
          filter_insertDesc t a (sortedDesc_sortByConfDesc tl), if_pos hta]
      · rw [if_neg fun hc => hta (confAtLeast_eq_true.mp hc), ih,
          filter_insertDesc t a (sortedDesc_sortByConfDesc tl), if_neg hta]

theorem filter_eq_nil_of_sorted_head {t : ℚ} {b : Detection}
    {l : List Detection} (hl : SortedDesc (b :: l)) (hb : ¬t ≤ b.conf) :
    (b :: l).filter (confAtLeast t) = [] := by
  rw [List.filter_eq_nil_iff]
  intro x hx
  rcases List.mem_cons.mp hx with rfl | hx
  · simpa [confAtLeast] using hb
  · rw [SortedDesc, List.pairwise_cons] at hl
    have : x.conf ≤ b.conf := hl.1 x hx
    simp only [confAtLeast, decide_eq_true_eq]
    intro hc
    exact hb (hc.trans this)

theorem nmsLoop_filter (t thr : ℚ) (fuel : ℕ) {l : List Detection}
    (hl : SortedDesc l) :
    nmsLoop thr fuel (l.filter (confAtLeast t))
      = (nmsLoop thr fuel l).filter (confAtLeast t) := by
  induction fuel generalizing l with
  | zero => rw [nmsLoop_zero, nmsLoop_zero, List.filter_nil]
  | succ fuel ih =>
      cases l with
      | nil => simp [nmsLoop_nil]
      | cons b rest =>
          by_cases hb : t ≤ b.conf
          · rw [List.filter_cons, if_pos (confAtLeast_eq_true.mpr hb), nmsLoop,
              nmsLoop, List.filter_cons, if_pos (confAtLeast_eq_true.mpr hb)]
            rw [SortedDesc, List.pairwise_cons] at hl
            have hsorted : SortedDesc
                (rest.filter (fun d => decide (iou b d < thr))) :=
              List.Pairwise.sublist (List.filter_sublist rest) hl.2
            rw [List.filter_filter]
            have hcomm : (fun (a : Detection) =>
                decide (iou b a < thr) && confAtLeast t a)
                = fun a => confAtLeast t a && decide (iou b a < thr) := by
              funext a
              exact Bool.and_comm _ _
            rw [hcomm, ← List.filter_filter, ih hsorted]
          · rw [filter_eq_nil_of_sorted_head hl hb, nmsLoop_nil, nmsLoop]
            symm
            rw [List.filter_eq_nil_iff]
            intro x hx
            rcases List.mem_cons.mp hx with rfl | hx
            · simpa [confAtLeast] using hb
            · have hx2 : x ∈ rest.filter (fun d => decide (iou b d < thr)) :=
                (nmsLoop_sublist thr fuel _).subset hx
              have hx3 : x ∈ rest := (List.filter_sublist rest).subset hx2
              rw [SortedDesc, List.pairwise_cons] at hl
              have : x.conf ≤ b.conf := hl.1 x hx3
              simp only [confAtLeast, decide_eq_true_eq]
              intro hc
              exact hb (hc.trans this)

theorem length_nms_le (l : List Detection) (thr : ℚ) :
    (nms l thr).length ≤ l.length := by
  rw [nms]
  split
  · exact le_refl _
  · calc (nmsLoop thr (sortByConfDesc l).length (sortByConfDesc l)).length
        ≤ (sortByConfDesc l).length :=
          (nmsLoop_sublist thr _ _).length_le
      _ = l.length := length_sortByConfDesc l

/-- Applies a Boolean filter to an optional detection. -/
def keepIf (p : Detection → Bool) : Option Detection → Option Detection
  | none => none
  | some d => if p d then some d else none

theorem keepIf_none (p : Detection → Bool) : keepIf p none = none := rfl

theorem keepIf_some (p : Detection → Bool) (d : Detection) :
    keepIf p (some d) = if p d = true then some d else none := rfl

@[simp] theorem sortedDesc_nil : SortedDesc [] := List.Pairwise.nil

theorem filterMap_keepIf (p : Detection → Bool)
    (f : Candidate → Option Detection) (l : List Candidate) :
    l.filterMap (fun c => keepIf p (f c)) = (l.filterMap f).filter p := by
  induction l with
  | nil => rfl
  | cons c cs ih =>
      rw [List.filterMap_cons, List.filterMap_cons]
      cases hf : f c with
      | none => simp only [hf, keepIf_none, ih]
      | some d =>
          simp only [hf, keepIf_some]
          by_cases hp : p d = true
          · rw [if_pos hp, List.filter_cons, if_pos hp, ih]
          · rw [if_neg hp, List.filter_cons, if_neg hp, ih]

theorem toDetection_minConf_update (cfg : DetectorConfig) (t : ℚ)
    (score : Candidate → Option PatchStats → ℚ) (geo : RoiGeom)
    (c : Candidate) (h : cfg.minConfidence ≤ t) :
    toDetection { cfg with minConfidence := t } score geo c
      = keepIf (confAtLeast t) (toDetection cfg score geo c) := by
  simp only [toDetection]
  by_cases h1 : c.area < geo.minArea ∨ geo.maxArea < c.area
  · rw [if_pos h1, if_pos h1]; rfl
  · rw [if_neg h1, if_neg h1]
    by_cases h2 : 5 < aspectRatio c.w c.h
    · rw [if_pos h2, if_pos h2]; rfl
    · rw [if_neg h2, if_neg h2]
      by_cases h4 : t ≤ score c (patchOf geo c)
      · rw [if_pos h4, if_pos (le_trans h h4), keepIf,
          if_pos (confAtLeast_eq_true.mpr h4)]
      · rw [if_neg h4]
        by_cases h3 : cfg.minConfidence ≤ score c (patchOf geo c)
        · rw [if_pos h3, keepIf,
            if_neg fun hc => h4 (confAtLeast_eq_true.mp hc)]
        · rw [if_neg h3]; rfl

theorem detectPipeline_threshold_mono (cfg : DetectorConfig) (t1 t2 : ℚ)
    (score : RoiGeom → Candidate → Option PatchStats → ℚ) (fd : FrameData)
    (h12 : t1 ≤ t2) :
    (detectPipeline { cfg with minConfidence := t2 } score fd).length ≤
    (detectPipeline { cfg with minConfidence := t1 } score fd).length := by
  have hcfg : ({ cfg with minConfidence := t2 } : DetectorConfig)
      = { ({ cfg with minConfidence := t1 } : DetectorConfig) with
          minConfidence := t2 } := rfl
  simp only [detectPipeline]
  have hgeo : mkGeom { cfg with minConfidence := t2 } fd.height fd.width
      = mkGeom { cfg with minConfidence := t1 } fd.height fd.width := rfl
  rw [hcfg, hgeo]
  set geo := mkGeom { cfg with minConfidence := t1 } fd.height fd.width
  have hfm : fd.candidates.filterMap
      (toDetection { ({ cfg with minConfidence := t1 } : DetectorConfig) with
          minConfidence := t2 } (score geo) geo)
      = (fd.candidates.filterMap
          (toDetection { cfg with minConfidence := t1 } (score geo) geo)).filter
            (confAtLeast t2) := by
    rw [← filterMap_keepIf]
    apply List.filterMap_congr
    intro c _
    exact toDetection_minConf_update _ t2 (score geo) geo c h12
  rw [hfm]
  set dets1 := fd.candidates.filterMap
    (toDetection { cfg with minConfidence := t1 } (score geo) geo)
  have hS : sortByConfDesc (dets1.filter (confAtLeast t2))
      = (sortByConfDesc dets1).filter (confAtLeast t2) :=
    sortByConfDesc_filter t2 dets1
  rw [hS]
  set S1 := sortByConfDesc dets1
  have hsorted1 : SortedDesc S1 := sortedDesc_sortByConfDesc dets1
  have hsorted2 : SortedDesc (S1.filter (confAtLeast t2)) :=
    List.Pairwise.sublist (List.filter_sublist S1) hsorted1
  rw [nms_eq_nmsLoop hsorted2, nms_eq_nmsLoop hsorted1]
  have hfuel : nmsLoop (3 / 10) (S1.filter (confAtLeast t2)).length
      (S1.filter (confAtLeast t2))
      = nmsLoop (3 / 10) S1.length (S1.filter (confAtLeast t2)) :=
    nmsLoop_fuel_irrel (3 / 10) (le_refl _) (List.length_filter_le _ _)
  rw [hfuel, nmsLoop_filter t2 (3 / 10) S1.length hsorted1]
  rw [List.length_take, List.length_take]
  exact min_le_min (le_refl 5)
    (List.length_filter_le _ _)

/-! ### Claim theorems -/

/-- C2: for every frame (and every state whose cache already satisfies the
invariant, as the initial state does and as this theorem shows is
preserved by every call), the list returned by `detect` has length at most
5 and is sorted by non-increasing confidence, and the updated cache again
satisfies both properties. -/
theorem c2_sorted_capped (cfg : DetectorConfig)
    (score : RoiGeom → Candidate → Option PatchStats → ℚ)
    (st : DetectorState) (frame : Option FrameData)
    (hsort : SortedDesc st.lastDetections)
    (hlen : st.lastDetections.length ≤ 5) :
    SortedDesc (detectCore cfg score st frame).1
      ∧ (detectCore cfg score st frame).1.length ≤ 5
      ∧ SortedDesc (detectCore cfg score st frame).2.lastDetections
      ∧ (detectCore cfg score st frame).2.lastDetections.length ≤ 5 := by
  cases frame with
  | none => exact ⟨List.Pairwise.nil, by simp [detectCore], hsort,
      by simpa [detectCore] using hlen⟩
  | some fd =>
      by_cases hsz : fd.height * fd.width = 0
      · exact ⟨by simp [detectCore, hsz], by simp [detectCore, hsz],
          by simpa [detectCore, hsz] using hsort,
          by simpa [detectCore, hsz] using hlen⟩
      · by_cases herr : fd.err = true
        · have h1 : (detectCore cfg score st (some fd)).1
              = if st.lastDetections.isEmpty then [] else st.lastDetections := by
            simp [detectCore, hsz, herr]
          have h2 : (detectCore cfg score st (some fd)).2.lastDetections
              = st.lastDetections := by
            simp [detectCore, hsz, herr]
          rw [h1, h2]
          refine ⟨?_, ?_, hsort, hlen⟩
          · split
            · exact List.Pairwise.nil
            · exact hsort
          · split
            · simp
            · exact hlen
        · have htop : SortedDesc (detectPipeline cfg score fd)
              ∧ (detectPipeline cfg score fd).length ≤ 5 := by
            constructor
            · exact List.Pairwise.sublist (List.take_sublist 5 _)
                (sortedDesc_nms _ _)
            · rw [detectPipeline]
              simp only [List.length_take]
              exact min_le_left 5 _
          refine ⟨?_, ?_, ?_, ?_⟩ <;>
            simp only [detectCore, if_neg (fun h => hsz h),
              Bool.not_eq_true] at * <;>
            simp only [herr, if_false, Bool.false_eq_true] <;>
            first
              | exact htop.1
              | exact htop.2

/-- C3: `detect` is a total function of the model (it never raises), and
when the processing of a valid frame raises internally, the call returns
the cached last successful detection list when that cache is non-empty
and the empty list otherwise, leaving the cache unchanged. -/
theorem c3_error_fallback (cfg : DetectorConfig)
    (score : RoiGeom → Candidate → Option PatchStats → ℚ)
    (st : DetectorState) (fd : FrameData)
    (hsz : fd.height * fd.width ≠ 0) (herr : fd.err = true) :
    (detectCore cfg score st (some fd)).1
      = (if st.lastDetections.isEmpty then [] else st.lastDetections)
    ∧ (detectCore cfg score st (some fd)).2.lastDetections
        = st.lastDetections := by
  constructor <;> simp [detectCore, hsz, herr]

/-- C4: every pair of detections kept by `_nms` (in list order) has
intersection over union strictly below the threshold, and the IoU of two
boxes whose intersection rectangle has nonpositive width or height is 0. -/
theorem c4_nms_pairwise_iou :
    (∀ (thr : ℚ) (dets : List Detection),
        (nms dets thr).Pairwise (fun a b => iou a b < thr))
    ∧ ∀ b1 b2 : Detection,
        min (b1.x + b1.w) (b2.x + b2.w) ≤ max b1.x b2.x
          ∨ min (b1.y + b1.h) (b2.y + b2.h) ≤ max b1.y b2.y →
        iou b1 b2 = 0 := by
  constructor
  · intro thr dets
    rw [nms]
    split
    · rename_i h
      match dets, h with
      | [], _ => exact List.Pairwise.nil
      | [a], _ => exact List.pairwise_singleton _ _
    · exact nmsLoop_pairwise thr _ _
  · intro b1 b2 hdeg
    simp only [iou]
    exact if_pos hdeg

/-- C5: for a fixed frame, state and scorer, raising the minimum
confidence threshold never increases the number of returned detections. -/
theorem c5_threshold_monotone (cfg : DetectorConfig) (t1 t2 : ℚ)
    (score : RoiGeom → Candidate → Option PatchStats → ℚ)
    (st : DetectorState) (frame : Option FrameData) (h12 : t1 ≤ t2) :
    (detectCore { cfg with minConfidence := t2 } score st frame).1.length ≤
    (detectCore { cfg with minConfidence := t1 } score st frame).1.length := by
  cases frame with
  | none => exact le_refl _
  | some fd =>
      by_cases hsz : fd.height * fd.width = 0
      · simp [detectCore, hsz]
      · by_cases herr : fd.err = true
        · simp [detectCore, hsz, herr]
        · simp only [detectCore, if_neg (fun h => hsz h),
            Bool.not_eq_true] at *
          simp only [herr, Bool.false_eq_true, if_false]
          exact detectPipeline_threshold_mono cfg t1 t2 score fd h12

/-- C9: for a fixed configuration and scorer, calling `detect` a second
time on the identical frame right after a first call returns exactly the
first result: the result is a function of the frame and configuration
only, not of the evolving internal state. -/
theorem c9_idempotent (cfg : DetectorConfig)
    (score : RoiGeom → Candidate → Option PatchStats → ℚ)
    (st : DetectorState) (frame : Option FrameData) :
    (detectCore cfg score (detectCore cfg score st frame).2 frame).1
      = (detectCore cfg score st frame).1 := by
  cases frame with
  | none => rfl
  | some fd =>
      by_cases hsz : fd.height * fd.width = 0
      · simp [detectCore, hsz]
      · by_cases herr : fd.err = true
        · simp [detectCore, hsz, herr]
        · simp [detectCore, hsz, herr]

/-! ### Witnesses -/

/-- Witness for C2 at a concrete input. -/
theorem c2_sorted_capped_witness :
    SortedDesc (detectCore PotholeDetector.defaultConfig
        (fun _ => computeConfidencePothole 3) DetectorState.init none).1
      ∧ (detectCore PotholeDetector.defaultConfig
          (fun _ => computeConfidencePothole 3) DetectorState.init none).1.length ≤ 5
      ∧ SortedDesc (detectCore PotholeDetector.defaultConfig
          (fun _ => computeConfidencePothole 3)
          DetectorState.init none).2.lastDetections
      ∧ (detectCore PotholeDetector.defaultConfig
          (fun _ => computeConfidencePothole 3)
          DetectorState.init none).2.lastDetections.length ≤ 5 :=
  c2_sorted_capped PotholeDetector.defaultConfig
    (fun _ => computeConfidencePothole 3) DetectorState.init none
    List.Pairwise.nil (by simp [DetectorState.init])

/-- Witness for C3 at a concrete input. -/
theorem c3_error_fallback_witness :
    (detectCore PotholeDetector.defaultConfig
        (fun _ => computeConfidencePothole 3) DetectorState.init
        (some { height := 1, width := 1, candidates := [], err := true })).1
      = (if DetectorState.init.lastDetections.isEmpty then []
          else DetectorState.init.lastDetections)
    ∧ (detectCore PotholeDetector.defaultConfig
        (fun _ => computeConfidencePothole 3) DetectorState.init
        (some { height := 1, width := 1, candidates := [],
                err := true })).2.lastDetections
      = DetectorState.init.lastDetections :=
  c3_error_fallback PotholeDetector.defaultConfig
    (fun _ => computeConfidencePothole 3) DetectorState.init
    { height := 1, width := 1, candidates := [], err := true }
    (by simp) rfl

/-- Witness for C4 at a concrete pair of disjoint boxes. -/
theorem c4_nms_pairwise_iou_witness :
    iou { x := 0, y := 0, w := 1, h := 1, conf := 1 }
        { x := 2, y := 0, w := 1, h := 1, conf := 1 } = 0 :=
  c4_nms_pairwise_iou.2
    { x := 0, y := 0, w := 1, h := 1, conf := 1 }
    { x := 2, y := 0, w := 1, h := 1, conf := 1 }
    (Or.inl (by norm_num))

/-- Witness for C5 at concrete thresholds and frame. -/
theorem c5_threshold_monotone_witness :
    (detectCore { PotholeDetector.defaultConfig with minConfidence := 1/2 }
        (fun _ => computeConfidencePothole 3) DetectorState.init none).1.length ≤
    (detectCore { PotholeDetector.defaultConfig with minConfidence := 1/4 }
        (fun _ => computeConfidencePothole 3) DetectorState.init none).1.length :=
  c5_threshold_monotone PotholeDetector.defaultConfig (1/4) (1/2)
    (fun _ => computeConfidencePothole 3) DetectorState.init none
    (by norm_num)

/-- C6: in the rigorous scorer, whenever any one of the five hard gates
fires (patch mean intensity above 120, nonempty-neighborhood contrast
ratio below 0.15, positive-perimeter circularity below 0.2, aspect ratio
above 3.0, or patch standard deviation below 5), the confidence is
exactly 0, bypassing the weighted sum. -/
theorem c6_hard_gates (pi : ℚ) (scaledH scaledW : ℕ) (c : Candidate)
    (p : PatchStats)
    (hgate :
      120 < p.mean
      ∨ (0 < nbhdSize scaledH scaledW c
          ∧ contrastRatio c.nbMean p.mean < 15 / 100)
      ∨ (0 < c.perimeter ∧ circularity pi c.area c.perimeter < 2 / 10)
      ∨ 3 < aspectRatio c.w c.h
      ∨ p.std < 5) :
    computeConfidenceHeuristic pi scaledH scaledW c (some p) = 0 := by
  by_cases h0 : p.size < 100
  · simp [computeConfidenceHeuristic, h0]
  · by_cases h1 : 120 < p.mean
    · simp [computeConfidenceHeuristic, h0, h1]
    · by_cases h2 : 0 < nbhdSize scaledH scaledW c
          ∧ contrastRatio c.nbMean p.mean < 15 / 100
      · simp [computeConfidenceHeuristic, h0, h1, h2]
      · rcases hgate with h | h | h | h | h
        · exact absurd h h1
        · exact absurd h h2
        · by_cases h3 : c.perimeter ≤ 0
          · simp [computeConfidenceHeuristic, h0, h1, h2, h3]
          · simp [computeConfidenceHeuristic, h0, h1, h2, h3, h.2]
        · by_cases h3 : c.perimeter ≤ 0
          · simp [computeConfidenceHeuristic, h0, h1, h2, h3]
          · by_cases h4 : circularity pi c.area c.perimeter < 2 / 10
            · simp [computeConfidenceHeuristic, h0, h1, h2, h3, h4]
            · simp [computeConfidenceHeuristic, h0, h1, h2, h3, h4, h]
        · by_cases h3 : c.perimeter ≤ 0
          · simp [computeConfidenceHeuristic, h0, h1, h2, h3]
          · by_cases h4 : circularity pi c.area c.perimeter < 2 / 10
            · simp [computeConfidenceHeuristic, h0, h1, h2, h3, h4]
            · by_cases h5 : 3 < aspectRatio c.w c.h
              · simp [computeConfidenceHeuristic, h0, h1, h2, h3, h4, h5]
              · simp [computeConfidenceHeuristic, h0, h1, h2, h3, h4, h5, h]

/-- Witness for C6: the brightness gate at a concrete candidate. -/
theorem c6_hard_gates_witness :
    computeConfidenceHeuristic 3 100 100
      { area := 50, x := 0, y := 0, w := 10, h := 10, perimeter := 30,
        hullArea := 50, patchMean := 200, patchStd := 10, nbMean := 100 }
      (some { size := 100, mean := 200, std := 10 }) = 0 :=
  c6_hard_gates 3 100 100
    { area := 50, x := 0, y := 0, w := 10, h := 10, perimeter := 30,
      hullArea := 50, patchMean := 200, patchStd := 10, nbMean := 100 }
    { size := 100, mean := 200, std := 10 }
    (Or.inl (by norm_num))

/-- C10: with a missing patch or a patch of fewer than 100 pixels the
rigorous scorer returns exactly 0, and therefore a candidate whose
bounding box covers fewer than 100 pixels is never turned into a
detection by the rigorous pipeline as long as the minimum confidence is
positive (it is 0.20 by default and 0.85 in the fallback). -/
theorem c10_small_patch_zero (pi : ℚ) (scaledH scaledW : ℕ) (c : Candidate)
    (cfg : DetectorConfig) (geo : RoiGeom) (patch : Option PatchStats)
    (hsmall : ∀ q : PatchStats, patch = some q → q.size < 100)
    (hpos : 0 < cfg.minConfidence) (hwh : c.w * c.h < 100) :
    computeConfidenceHeuristic pi scaledH scaledW c patch = 0
    ∧ toDetection cfg
        (fun c2 p2 => computeConfidenceHeuristic pi geo.scaledH geo.scaledW c2 p2)
        geo c = none := by
  constructor
  · cases patch with
    | none => rfl
    | some q =>
        have hq := hsmall q rfl
        simp [computeConfidenceHeuristic, hq]
  · simp only [toDetection]
    by_cases h1 : c.area < geo.minArea ∨ geo.maxArea < c.area
    · rw [if_pos h1]
    · rw [if_neg h1]
      by_cases h2 : 5 < aspectRatio c.w c.h
      · rw [if_pos h2]
      · rw [if_neg h2]
        have hconf : computeConfidenceHeuristic pi geo.scaledH geo.scaledW c
            (patchOf geo c) = 0 := by
          rw [patchOf]
          split
          · simp [computeConfidenceHeuristic, hwh]
          · rfl
        rw [hconf, if_neg (not_le.mpr hpos)]

/-- Witness for C10 at a concrete small candidate. -/
theorem c10_small_patch_zero_witness :
    computeConfidenceHeuristic 3 100 100
      { area := 10, x := 0, y := 0, w := 5, h := 5, perimeter := 12,
        hullArea := 10, patchMean := 0, patchStd := 40, nbMean := 100 }
      none = 0
    ∧ toDetection HeuristicPotholeDetector.defaultConfig
        (fun c2 p2 => computeConfidenceHeuristic 3
          ({ height := 100, roiY := 40, roiW := 100, scale := 1,
             scaledW := 100, scaledH := 60, minArea := 18,
             maxArea := 900 } : RoiGeom).scaledH
          ({ height := 100, roiY := 40, roiW := 100, scale := 1,
             scaledW := 100, scaledH := 60, minArea := 18,
             maxArea := 900 } : RoiGeom).scaledW c2 p2)
        { height := 100, roiY := 40, roiW := 100, scale := 1,
          scaledW := 100, scaledH := 60, minArea := 18, maxArea := 900 }
        { area := 10, x := 0, y := 0, w := 5, h := 5, perimeter := 12,
          hullArea := 10, patchMean := 0, patchStd := 40, nbMean := 100 }
      = none :=
  c10_small_patch_zero 3 100 100
    { area := 10, x := 0, y := 0, w := 5, h := 5, perimeter := 12,
      hullArea := 10, patchMean := 0, patchStd := 40, nbMean := 100 }
    HeuristicPotholeDetector.defaultConfig
    { height := 100, roiY := 40, roiW := 100, scale := 1,
      scaledW := 100, scaledH := 60, minArea := 18, maxArea := 900 }
    none (fun q hq => by cases hq) (by norm_num [HeuristicPotholeDetector.defaultConfig])
    (by norm_num)

/-- A candidate whose bounding box is 26 by 5 pixels: the ratio of its
sides is 26/5 = 5.2, yet the aspect value computed by the source,
26/(5+1), is below 5, so the box passes the aspect filter. -/
def candLongBox : Candidate :=
  { area := 60, x := 0, y := 0, w := 26, h := 5, perimeter := 40,
    hullArea := 60, patchMean := 0, patchStd := 40, nbMean := 0 }

/-- C7 counterexample: the 26-by-5 candidate has bounding-box side ratio
max(w,h)/min(w,h) above 5, yet the extractor does not reject it — it
yields a detection — because the code divides by min(w,h)+1 rather than
min(w,h). -/
theorem c7_counterexample :
    5 < ((max candLongBox.w candLongBox.h : ℕ) : ℚ)
        / ((min candLongBox.w candLongBox.h : ℕ) : ℚ)
    ∧ (toDetection PotholeDetector.defaultConfig
        (computeConfidencePothole (314159 / 100000))
        (mkGeom PotholeDetector.defaultConfig 200 100)
        candLongBox).isSome = true := by
  constructor
  · norm_num [candLongBox]
  · have hgeo : mkGeom PotholeDetector.defaultConfig 200 100
        = { height := 200, roiY := 70, roiW := 100, scale := 1,
            scaledW := 100, scaledH := 130, minArea := 13,
            maxArea := 1950 } := by
      have h1 : (⌊(35 / 100 : ℚ) * (200 : ℕ)⌋ : ℤ) = 70 := by norm_num
      have h2 : Int.toNat 70 = 70 := rfl
      simp only [mkGeom, PotholeDetector.defaultConfig, h1, h2]
      norm_num
    rw [hgeo]
    norm_num [toDetection, PotholeDetector.defaultConfig, candLongBox,
      aspectRatio, circularity, computeConfidencePothole, patchOf]

/-- C7 (amended): the extractor rejects a contour — yields no detection
from it — when its enclosed area is outside the configured area bounds or
when max(w,h)/(min(w,h)+1) exceeds 5; the denominator in the source is
min(w,h)+1, not min(w,h). -/
theorem c7_amended_reject (cfg : DetectorConfig)
    (score : Candidate → Option PatchStats → ℚ) (geo : RoiGeom)
    (c : Candidate)
    (hrej : c.area < geo.minArea ∨ geo.maxArea < c.area
      ∨ 5 < aspectRatio c.w c.h) :
    toDetection cfg score geo c = none := by
  simp only [toDetection]
  rcases hrej with h | h | h
  · rw [if_pos (Or.inl h)]
  · rw [if_pos (Or.inr h)]
  · by_cases h1 : c.area < geo.minArea ∨ geo.maxArea < c.area
    · rw [if_pos h1]
    · rw [if_neg h1, if_pos h]

/-- Witness for the amended C7 at a concrete undersized contour. -/
theorem c7_amended_reject_witness :
    toDetection PotholeDetector.defaultConfig
      (computeConfidencePothole 3)
      { height := 100, roiY := 35, roiW := 100, scale := 1, scaledW := 100,
        scaledH := 65, minArea := 13 / 2, maxArea := 975 }
      { area := 1, x := 0, y := 0, w := 2, h := 2, perimeter := 4,
        hullArea := 1, patchMean := 0, patchStd := 40, nbMean := 0 }
      = none :=
  c7_amended_reject PotholeDetector.defaultConfig
    (computeConfidencePothole 3)
    { height := 100, roiY := 35, roiW := 100, scale := 1, scaledW := 100,
      scaledH := 65, minArea := 13 / 2, maxArea := 975 }
    { area := 1, x := 0, y := 0, w := 2, h := 2, perimeter := 4,
      hullArea := 1, patchMean := 0, patchStd := 40, nbMean := 0 }
    (Or.inl (by norm_num))

/-- C8: when the ONNX model loaded successfully but inference raises on a
given (valid) frame, that call is delegated to a freshly constructed
heuristic detector with minimum confidence 0.85, and its result is
returned. -/
theorem c8_yolo_fallback (pi confThreshold : ℚ) (yf : YoloFrame)
    (hsz : yf.heurView.height * yf.heurView.width ≠ 0)
    (herr : yf.inferErr = true) :
    YOLOPotholeDetector.detect pi confThreshold true (some yf)
      = (HeuristicPotholeDetector.detect pi
          { HeuristicPotholeDetector.defaultConfig with
              minConfidence := 85 / 100 }
          DetectorState.init (some yf.heurView)).1 := by
  simp [YOLOPotholeDetector.detect, YOLOPotholeDetector.detectFallback,
    hsz, herr]

/-- Witness for C8 at a concrete frame. -/
theorem c8_yolo_fallback_witness :
    YOLOPotholeDetector.detect 3 (1 / 2) true
        (some { heurView := { height := 1, width := 1, candidates := [],
                              err := false },
                rawOutputs := [], nmsIdx := [], inferErr := true })
      = (HeuristicPotholeDetector.detect 3
          { HeuristicPotholeDetector.defaultConfig with
              minConfidence := 85 / 100 }
          DetectorState.init
          (some { height := 1, width := 1, candidates := [],
                  err := false })).1 :=
  c8_yolo_fallback 3 (1 / 2)
    { heurView := { height := 1, width := 1, candidates := [], err := false },
      rawOutputs := [], nmsIdx := [], inferErr := true }
    (by simp) rfl

/-! ### Well-formedness of OpenCV measurements

These are the guarantees OpenCV gives about the opaque measurements of a
contour found in the scaled ROI image: the bounding rectangle of a
nonempty contour lies inside the image and has positive side lengths,
`cv2.contourArea` and `cv2.arcLength` and hull areas are nonnegative, and
the mean of a uint8 patch lies in [0, 255] while its standard deviation
is nonnegative. -/
def CandWF (geo : RoiGeom) (c : Candidate) : Prop :=
  c.x + c.w ≤ geo.scaledW ∧ c.y + c.h ≤ geo.scaledH ∧ 1 ≤ c.w ∧ 1 ≤ c.h
    ∧ 0 ≤ c.area ∧ 0 ≤ c.perimeter ∧ 0 ≤ c.hullArea
    ∧ 0 ≤ c.patchMean ∧ c.patchMean ≤ 255 ∧ 0 ≤ c.patchStd

theorem cvRound_le (q : ℚ) : ((cvRound q : ℤ) : ℚ) ≤ q + 1 / 2 := by
  rw [cvRound]
  have hfl : ((⌊q⌋ : ℤ) : ℚ) ≤ q := Int.floor_le q
  split_ifs with h1 h2 h3
  · linarith
  · push_cast
    linarith
  · linarith
  · push_cast
    have heq : q - ((⌊q⌋ : ℤ) : ℚ) = 1 / 2 := le_antisymm (not_lt.mp h2)
      (not_lt.mp h1)
    linarith

theorem cvRound_nonneg {q : ℚ} (hq : 0 ≤ q) : 0 ≤ cvRound q := by
  have hfl : (0 : ℤ) ≤ ⌊q⌋ := Int.floor_nonneg.mpr hq
  rw [cvRound]
  split_ifs <;> omega

theorem computeConfidencePothole_bounds (pi : ℚ) (c : Candidate)
    (patch : Option PatchStats)
    (harea : 0 ≤ c.area)
    (hp : ∀ q : PatchStats, patch = some q →
      0 ≤ q.mean ∧ q.mean ≤ 255 ∧ 0 ≤ q.std) :
    0 ≤ computeConfidencePothole pi c patch
      ∧ computeConfidencePothole pi c patch ≤ 1 := by
  refine ⟨?_, ?_⟩
  · simp only [computeConfidencePothole]
    refine le_min ?_ (by norm_num)
    refine add_nonneg (add_nonneg (add_nonneg (add_nonneg ?_ ?_) ?_) ?_) ?_
    · split_ifs with h1 h2
      · have hc : (0 : ℚ) ≤ circularity pi c.area c.perimeter :=
          le_trans (by norm_num) h2.1
        exact mul_nonneg (by norm_num)
          (le_min (div_nonneg hc (by norm_num)) zero_le_one)
      · norm_num
      · exact le_refl 0
    · split_ifs <;> norm_num
    · cases patch with
      | none => exact le_refl 0
      | some q =>
          obtain ⟨hm0, hm1, _⟩ := hp q rfl
          have hdark : (0 : ℚ) ≤ 1 - q.mean / 255 := by
            have : q.mean / 255 ≤ 1 := (div_le_one (by norm_num)).mpr hm1
            linarith
          show (0 : ℚ) ≤ if 0 < q.size then
              (if 1 / 2 < 1 - q.mean / 255 then 30 / 100 * (1 - q.mean / 255)
                else 30 / 100 * (1 - q.mean / 255) * (1 / 2))
            else 0
          split_ifs
          · exact mul_nonneg (by norm_num) hdark
          · exact mul_nonneg (mul_nonneg (by norm_num) hdark) (by norm_num)
          · exact le_refl 0
    · cases patch with
      | none => exact le_refl 0
      | some q =>
          obtain ⟨_, _, hstd⟩ := hp q rfl
          show (0 : ℚ) ≤ if 0 < q.size then 20 / 100 * min (q.std / 40) 1
            else 0
          split_ifs
          · exact mul_nonneg (by norm_num)
              (le_min (div_nonneg hstd (by norm_num)) zero_le_one)
          · exact le_refl 0
    · split_ifs with h1
      · exact mul_nonneg (by norm_num) (div_nonneg harea (le_of_lt h1))
      · exact le_refl 0
  · simp only [computeConfidencePothole]
    exact min_le_right _ 1

theorem toDetection_bounds (cfg : DetectorConfig)
    (score : Candidate → Option PatchStats → ℚ)
    (height width : ℕ) (c : Candidate) (d : Detection)
    (hh : height ≠ 0) (hw : width ≠ 0) (hy1 : cfg.roiYStart ≤ 1)
    (hwf : CandWF (mkGeom cfg height width) c)
    (hs0 : 0 ≤ score c (patchOf (mkGeom cfg height width) c))
    (hs1 : score c (patchOf (mkGeom cfg height width) c) ≤ 1)
    (hd : toDetection cfg score (mkGeom cfg height width) c = some d) :
    0 ≤ d.x ∧ d.x ≤ 1 ∧ 0 ≤ d.y ∧ d.y ≤ 1 ∧ 0 ≤ d.w ∧ 0 ≤ d.h
      ∧ d.x + d.w ≤ 1
      ∧ d.y + d.h ≤ 1 + (width : ℚ) / (1280 * (height : ℚ))
      ∧ 0 ≤ d.conf ∧ d.conf ≤ 1 := by
  obtain ⟨hxw, hyh, hcw, hch, _, _, _, _, _, _⟩ := hwf
  have hH : (0 : ℚ) < (height : ℚ) := by
    exact_mod_cast Nat.pos_of_ne_zero hh
  have hW : (0 : ℚ) < (width : ℚ) := by
    exact_mod_cast Nat.pos_of_ne_zero hw
  have hroiY_le : (mkGeom cfg height width).roiY ≤ height := by
    have h1 : cfg.roiYStart * (height : ℚ) ≤ (height : ℚ) := by
      have := mul_le_mul_of_nonneg_right hy1
        (Nat.cast_nonneg (α := ℚ) height)
      simpa using this
    have h2 : ⌊cfg.roiYStart * ((height : ℕ) : ℚ)⌋ ≤ (height : ℤ) := by
      calc ⌊cfg.roiYStart * ((height : ℕ) : ℚ)⌋
          ≤ ⌊((height : ℕ) : ℚ)⌋ := Int.floor_le_floor h1
        _ = (height : ℤ) := Int.floor_natCast height
    exact Int.toNat_le.mpr h2
  have hYle : ((mkGeom cfg height width).roiY : ℚ) ≤ (height : ℚ) := by
    exact_mod_cast hroiY_le
  have hY0 : (0 : ℚ) ≤ ((mkGeom cfg height width).roiY : ℚ) :=
    Nat.cast_nonneg _
  have hRcast : (((height - (mkGeom cfg height width).roiY : ℕ)) : ℚ)
      = (height : ℚ) - ((mkGeom cfg height width).roiY : ℚ) :=
    Nat.cast_sub hroiY_le
  have hscale_def : (mkGeom cfg height width).scale
      = if 640 < width then (640 : ℚ) / (width : ℚ) else 1 := rfl
  have hscaledW_def : (mkGeom cfg height width).scaledW
      = if 640 < width then 640 else width := rfl
  have hscaledH_def : (mkGeom cfg height width).scaledH
      = if 640 < width then
          (cvRound (((height - (mkGeom cfg height width).roiY : ℕ) : ℚ)
            * (mkGeom cfg height width).scale)).toNat
        else (height - (mkGeom cfg height width).roiY : ℕ) := rfl
  have hs_pos : 0 < (mkGeom cfg height width).scale := by
    rw [hscale_def]
    split_ifs
    · exact div_pos (by norm_num) hW
    · norm_num
  have hs_le_one : (mkGeom cfg height width).scale ≤ 1 := by
    rw [hscale_def]
    split_ifs with hres
    · rw [div_le_one hW]
      exact_mod_cast le_of_lt hres
    · exact le_refl 1
  -- the scaled width equals scale times the ROI width, exactly
  have hSW : ((mkGeom cfg height width).scaledW : ℚ)
      = (mkGeom cfg height width).scale * (width : ℚ) := by
    rw [hscale_def, hscaledW_def]
    split_ifs with hres
    · rw [div_mul_cancel₀ _ (ne_of_gt hW)]
      norm_num
    · rw [one_mul]
  -- the scaled height is at most roiH * scale + 1/2 (resize rounding)
  have hSH_le : ((mkGeom cfg height width).scaledH : ℚ)
      ≤ (((height - (mkGeom cfg height width).roiY : ℕ)) : ℚ)
          * (mkGeom cfg height width).scale + 1 / 2 := by
    rw [hscaledH_def]
    split_ifs with hres
    · have harg : (0 : ℚ)
          ≤ (((height - (mkGeom cfg height width).roiY : ℕ)) : ℚ)
            * (mkGeom cfg height width).scale :=
        mul_nonneg (Nat.cast_nonneg _) hs_pos.le
      have hcast : ((cvRound ((((height - (mkGeom cfg height width).roiY : ℕ)) : ℚ)
          * (mkGeom cfg height width).scale)).toNat : ℚ)
          = ((cvRound ((((height - (mkGeom cfg height width).roiY : ℕ)) : ℚ)
              * (mkGeom cfg height width).scale) : ℤ) : ℚ) := by
        exact_mod_cast congrArg (fun z : ℤ => (z : ℚ))
          (Int.toNat_of_nonneg (cvRound_nonneg harg))
      rw [hcast]
      exact cvRound_le _
    · have hs_eq : (mkGeom cfg height width).scale = 1 := by
        rw [hscale_def, if_neg hres]
      rw [hs_eq, mul_one]
      linarith
  have hSH_le2 : ((mkGeom cfg height width).scaledH : ℚ)
      ≤ ((height : ℚ) - ((mkGeom cfg height width).roiY : ℚ))
          * (mkGeom cfg height width).scale + 1 / 2 := by
    rw [← hRcast]
    exact hSH_le
  have hyq : (c.y : ℚ) + (c.h : ℚ)
      ≤ ((mkGeom cfg height width).scaledH : ℚ) := by exact_mod_cast hyh
  have hxq : (c.x : ℚ) + (c.w : ℚ)
      ≤ ((mkGeom cfg height width).scaledW : ℚ) := by exact_mod_cast hxw
  have hchq : (1 : ℚ) ≤ (c.h : ℚ) := by exact_mod_cast hch
  have hcwq : (1 : ℚ) ≤ (c.w : ℚ) := by exact_mod_cast hcw
  -- key inequality for y alone
  have hkey2 : (c.y : ℚ) / (mkGeom cfg height width).scale
      ≤ (height : ℚ) - ((mkGeom cfg height width).roiY : ℚ) := by
    rw [div_le_iff hs_pos]
    linarith [hSH_le2, hyq, hchq]
  -- key inequality for y + h
  have hkey3 : ((mkGeom cfg height width).scaledH : ℚ)
        / (mkGeom cfg height width).scale
        + ((mkGeom cfg height width).roiY : ℚ)
      ≤ (height : ℚ) + (width : ℚ) / 1280 := by
    by_cases hres : 640 < width
    · have hs_eq : (mkGeom cfg height width).scale
          = (640 : ℚ) / (width : ℚ) := by rw [hscale_def, if_pos hres]
      have h1 : ((mkGeom cfg height width).scaledH : ℚ)
            / (mkGeom cfg height width).scale
          ≤ (((height : ℚ) - ((mkGeom cfg height width).roiY : ℚ))
              * (mkGeom cfg height width).scale + 1 / 2)
            / (mkGeom cfg height width).scale :=
        (div_le_div_right hs_pos).mpr hSH_le2
      have h2 : (((height : ℚ) - ((mkGeom cfg height width).roiY : ℚ))
            * ((640 : ℚ) / (width : ℚ)) + 1 / 2) / ((640 : ℚ) / (width : ℚ))
            + ((mkGeom cfg height width).roiY : ℚ)
          = (height : ℚ) + (width : ℚ) / 1280 := by
        field_simp
        ring
      rw [hs_eq] at h1 ⊢
      linarith
    · have hs_eq : (mkGeom cfg height width).scale = 1 := by
        rw [hscale_def, if_neg hres]
      have hSH_eq : ((mkGeom cfg height width).scaledH : ℚ)
          = (height : ℚ) - ((mkGeom cfg height width).roiY : ℚ) := by
        rw [hscaledH_def, if_neg hres, hRcast]
      rw [hs_eq, hSH_eq, div_one]
      have : (0 : ℚ) ≤ (width : ℚ) / 1280 := by positivity
      linarith
  -- unpack the produced detection
  simp only [toDetection] at hd
  split at hd
  · exact absurd hd (by simp)
  · split at hd
    · exact absurd hd (by simp)
    · split at hd
      · injection hd with hD
        subst hD
        -- abbreviations
        have hx0 : (0 : ℚ) ≤ (c.x : ℚ) / (mkGeom cfg height width).scale
            / (((mkGeom cfg height width).roiW : ℕ) : ℚ) :=
          div_nonneg (div_nonneg (Nat.cast_nonneg _) hs_pos.le)
            (Nat.cast_nonneg _)
        have hw0 : (0 : ℚ) ≤ (c.w : ℚ) / (mkGeom cfg height width).scale
            / (((mkGeom cfg height width).roiW : ℕ) : ℚ) :=
          div_nonneg (div_nonneg (Nat.cast_nonneg _) hs_pos.le)
            (Nat.cast_nonneg _)
        have hy0q : (0 : ℚ) ≤ ((c.y : ℚ) / (mkGeom cfg height width).scale
            + ((mkGeom cfg height width).roiY : ℚ))
            / (((mkGeom cfg height width).height : ℕ) : ℚ) := by
          apply div_nonneg _ (Nat.cast_nonneg _)
          exact add_nonneg (div_nonneg (Nat.cast_nonneg _) hs_pos.le) hY0
        have hh0 : (0 : ℚ) ≤ (c.h : ℚ) / (mkGeom cfg height width).scale
            / (((mkGeom cfg height width).height : ℕ) : ℚ) :=
          div_nonneg (div_nonneg (Nat.cast_nonneg _) hs_pos.le)
            (Nat.cast_nonneg _)
        have hroiW_eq : (mkGeom cfg height width).roiW = width := rfl
        have hheight_eq : (mkGeom cfg height width).height = height := rfl
        have hxwsum : (c.x : ℚ) / (mkGeom cfg height width).scale
              / (((mkGeom cfg height width).roiW : ℕ) : ℚ)
            + (c.w : ℚ) / (mkGeom cfg height width).scale
              / (((mkGeom cfg height width).roiW : ℕ) : ℚ) ≤ 1 := by
          rw [hroiW_eq, div_div, div_div, div_add_div_same, div_le_one
            (mul_pos hs_pos hW)]
          rw [hSW] at hxq
          linarith
        have hyhsum : ((c.y : ℚ) / (mkGeom cfg height width).scale
              + ((mkGeom cfg height width).roiY : ℚ))
              / (((mkGeom cfg height width).height : ℕ) : ℚ)
            + (c.h : ℚ) / (mkGeom cfg height width).scale
              / (((mkGeom cfg height width).height : ℕ) : ℚ)
            ≤ 1 + (width : ℚ) / (1280 * (height : ℚ)) := by
          rw [hheight_eq, div_add_div_same, div_le_iff hH]
          have hsplit : (c.y : ℚ) / (mkGeom cfg height width).scale
              + (c.h : ℚ) / (mkGeom cfg height width).scale
              = ((c.y : ℚ) + (c.h : ℚ)) / (mkGeom cfg height width).scale :=
            (add_div _ _ _).symm
          have hmono : ((c.y : ℚ) + (c.h : ℚ))
                / (mkGeom cfg height width).scale
              ≤ ((mkGeom cfg height width).scaledH : ℚ)
                / (mkGeom cfg height width).scale :=
            (div_le_div_right hs_pos).mpr hyq
          have hrhs : (1 + (width : ℚ) / (1280 * (height : ℚ)))
              * (height : ℚ) = (height : ℚ) + (width : ℚ) / 1280 := by
            field_simp
            ring
          rw [hrhs]
          calc (c.y : ℚ) / (mkGeom cfg height width).scale
                + ((mkGeom cfg height width).roiY : ℚ)
                + (c.h : ℚ) / (mkGeom cfg height width).scale
              = ((c.y : ℚ) + (c.h : ℚ)) / (mkGeom cfg height width).scale
                + ((mkGeom cfg height width).roiY : ℚ) := by
                rw [← hsplit]; ring
            _ ≤ ((mkGeom cfg height width).scaledH : ℚ)
                / (mkGeom cfg height width).scale
                + ((mkGeom cfg height width).roiY : ℚ) := by linarith
            _ ≤ (height : ℚ) + (width : ℚ) / 1280 := hkey3
        have hy1q : ((c.y : ℚ) / (mkGeom cfg height width).scale
              + ((mkGeom cfg height width).roiY : ℚ))
              / (((mkGeom cfg height width).height : ℕ) : ℚ) ≤ 1 := by
          rw [hheight_eq, div_le_one hH]
          linarith [hkey2]
        rename_i hmin
        refine ⟨hx0, by linarith, hy0q, hy1q, hw0, hh0, hxwsum, hyhsum,
          hs0, hs1⟩
      · exact absurd hd (by simp)

/-- C1 (amended): for every valid frame processed without an internal
error, every detection produced by `PotholeDetector.detect` (any minimum
confidence, any state) has all coordinates and the confidence within the
claimed bounds, except that the bound on y + h is 1 + width/(1280*height)
rather than 1: when the ROI is downscaled the resize rounding can push
the bottom edge of a box up to half a scaled pixel below the frame.  For
an ROI that is not downscaled (width at most 640) the slack term is never
used and y + h stays at most 1 along the same proof. -/
theorem c1_amended_bounds (pi mc : ℚ) (st : DetectorState) (fd : FrameData)
    (herr : fd.err = false)
    (hwf : ∀ c ∈ fd.candidates,
      CandWF (mkGeom { PotholeDetector.defaultConfig with
        minConfidence := mc } fd.height fd.width) c) :
    ∀ d ∈ (PotholeDetector.detect pi
        { PotholeDetector.defaultConfig with minConfidence := mc }
        st (some fd)).1,
      0 ≤ d.x ∧ d.x ≤ 1 ∧ 0 ≤ d.y ∧ d.y ≤ 1 ∧ 0 ≤ d.w ∧ 0 ≤ d.h
        ∧ d.x + d.w ≤ 1
        ∧ d.y + d.h ≤ 1 + (fd.width : ℚ) / (1280 * (fd.height : ℚ))
        ∧ 0 ≤ d.conf ∧ d.conf ≤ 1 := by
  intro d hd
  by_cases hsz : fd.height * fd.width = 0
  · simp [PotholeDetector.detect, detectCore, hsz] at hd
  · have hh : fd.height ≠ 0 := by
      intro h
      exact hsz (by rw [h, Nat.zero_mul])
    have hw : fd.width ≠ 0 := by
      intro h
      exact hsz (by rw [h, Nat.mul_zero])
    have hout : (PotholeDetector.detect pi
        { PotholeDetector.defaultConfig with minConfidence := mc }
        st (some fd)).1
        = detectPipeline { PotholeDetector.defaultConfig with
            minConfidence := mc } (fun _ => computeConfidencePothole pi) fd := by
      simp [PotholeDetector.detect, detectCore, hsz, herr]
    rw [hout] at hd
    simp only [detectPipeline] at hd
    have hd2 : d ∈ sortByConfDesc (fd.candidates.filterMap
        (toDetection { PotholeDetector.defaultConfig with minConfidence := mc }
          (computeConfidencePothole pi)
          (mkGeom { PotholeDetector.defaultConfig with minConfidence := mc }
            fd.height fd.width))) :=
      mem_nms ((List.take_sublist 5 _).subset hd)
    have hd3 := mem_sortByConfDesc.mp hd2
    obtain ⟨c, hc, hcd⟩ := List.mem_filterMap.mp hd3
    obtain ⟨_, _, _, _, harea, _, _, hm0, hm1, hstd⟩ := hwf c hc
    have hp : ∀ q : PatchStats,
        patchOf (mkGeom { PotholeDetector.defaultConfig with
          minConfidence := mc } fd.height fd.width) c = some q →
        0 ≤ q.mean ∧ q.mean ≤ 255 ∧ 0 ≤ q.std := by
      intro q hq
      rw [patchOf] at hq
      split at hq
      · injection hq with hq2
        subst hq2
        exact ⟨hm0, hm1, hstd⟩
      · exact absurd hq (by simp)
    have hs := computeConfidencePothole_bounds pi c _ harea hp
    exact toDetection_bounds _ _ fd.height fd.width c d hh hw
      (by norm_num [PotholeDetector.defaultConfig]) (hwf c hc)
      hs.1 hs.2 hcd

/-- A thin tall candidate touching the bottom edge of the scaled ROI of a
158 by 1280 frame.  The ROI is 103 rows tall and downscaled by 1/2, and
cv2.resize rounds 51.5 rows up to 52, so the box of height 52 maps back
to 104 source rows, one more than the ROI has. -/
def candTall : Candidate :=
  { area := 300, x := 0, y := 0, w := 13, h := 52, perimeter := 100,
    hullArea := 300, patchMean := 0, patchStd := 40, nbMean := 0 }

/-- The 158 by 1280 frame on which `candTall` is extracted. -/
def frameTall : FrameData :=
  { height := 158, width := 1280, candidates := [candTall], err := false }

/-- C1 counterexample: on the concrete 158 by 1280 frame, `detect`
returns a detection with y + h = 159/158 strictly above 1, refuting the
claimed invariant y + h ≤ 1. -/
theorem c1_counterexample :
    ((PotholeDetector.detect (314159 / 100000) PotholeDetector.defaultConfig
        DetectorState.init (some frameTall)).1.any
      (fun d => decide (1 < d.y + d.h))) = true := by
  have hgeo : mkGeom PotholeDetector.defaultConfig 158 1280
      = { height := 158, roiY := 55, roiW := 1280, scale := 1 / 2,
          scaledW := 640, scaledH := 52, minArea := 832 / 25,
          maxArea := 4992 } := by
    have h1 : (⌊(35 / 100 : ℚ) * (158 : ℕ)⌋ : ℤ) = 55 := by norm_num
    have h2 : Int.toNat 55 = 55 := rfl
    have h3 : ⌊(103 : ℚ) * (1 / 2)⌋ = 51 := by norm_num
    have h4 : Int.toNat 52 = 52 := rfl
    simp only [mkGeom, PotholeDetector.defaultConfig, h1, h2, cvRound]
    norm_num [h3, h4]
  have hdet : toDetection PotholeDetector.defaultConfig
      (computeConfidencePothole (314159 / 100000))
      { height := 158, roiY := 55, roiW := 1280, scale := 1 / 2,
        scaledW := 640, scaledH := 52, minArea := 832 / 25,
        maxArea := 4992 }
      candTall
      = some { x := 0, y := 55 / 158, w := 13 / 640, h := 52 / 79,
               conf := 5562477 / 7000000 } := by
    norm_num [toDetection, PotholeDetector.defaultConfig, candTall, patchOf,
      aspectRatio, circularity, computeConfidencePothole]
  have hpipe : (PotholeDetector.detect (314159 / 100000)
      PotholeDetector.defaultConfig DetectorState.init (some frameTall)).1
      = [{ x := 0, y := 55 / 158, w := 13 / 640, h := 52 / 79,
           conf := 5562477 / 7000000 }] := by
    simp only [PotholeDetector.detect, detectCore, detectPipeline, frameTall]
    rw [hgeo]
    simp only [List.filterMap_cons, List.filterMap_nil, hdet]
    simp [nms, sortByConfDesc, insertDesc]
  rw [hpipe]
  simp only [List.any_cons, List.any_nil, Bool.or_false,
    decide_eq_true_eq]
  norm_num

/-- A well-formed candidate on a 100 by 100 frame, used to witness the
amended C1. -/
def candSquare : Candidate :=
  { area := 300, x := 10, y := 10, w := 20, h := 20, perimeter := 80,
    hullArea := 300, patchMean := 0, patchStd := 40, nbMean := 0 }

/-- The 100 by 100 frame carrying `candSquare`. -/
def frameSquare : FrameData :=
  { height := 100, width := 100, candidates := [candSquare], err := false }

/-- Witness for the amended C1 at a concrete frame and candidate. -/
theorem c1_amended_bounds_witness :
    ((PotholeDetector.detect 3
        { PotholeDetector.defaultConfig with minConfidence := 40 / 100 }
        DetectorState.init (some frameSquare)).1.all
      (fun d => decide (0 ≤ d.x ∧ d.x ≤ 1 ∧ 0 ≤ d.y ∧ d.y ≤ 1 ∧ 0 ≤ d.w
        ∧ 0 ≤ d.h ∧ d.x + d.w ≤ 1
        ∧ d.y + d.h ≤ 1
            + (frameSquare.width : ℚ) / (1280 * (frameSquare.height : ℚ))
        ∧ 0 ≤ d.conf ∧ d.conf ≤ 1))) = true := by
  rw [List.all_eq_true]
  intro d hd
  refine decide_eq_true
    (c1_amended_bounds 3 (40 / 100) DetectorState.init frameSquare
      rfl ?_ d hd)
  exact (by
      intro c hc
      rw [show frameSquare.candidates = [candSquare] from rfl,
        List.mem_singleton] at hc
      subst hc
      have hgeo : mkGeom { PotholeDetector.defaultConfig with
          minConfidence := 40 / 100 } frameSquare.height frameSquare.width
          = { height := 100, roiY := 35, roiW := 100, scale := 1,
              scaledW := 100, scaledH := 65, minArea := 13 / 2,
              maxArea := 975 } := by
        have h1 : (⌊(35 / 100 : ℚ) * (100 : ℕ)⌋ : ℤ) = 35 := by norm_num
        have h2 : Int.toNat 35 = 35 := rfl
        simp only [frameSquare, mkGeom, PotholeDetector.defaultConfig, h1, h2]
        norm_num
      rw [CandWF, hgeo]
      norm_num [candSquare])

end Pothole
